import Mathlib

/-!
# Verification of the `shareable` crate's promotion protocol

A shallow embedding of the `shareable` library (src/).  Every cell type in the
crate is a two-variant value `Data::Single(v) | Data::Multiple(backing)`:
`Single` owns the value directly, `Multiple` holds an `Arc` to a shared
backing (an atomic word for the scalar types that fit, a `Mutex` otherwise,
and a `Mutex<Arc<T>>` snapshot slot for `SharedObject`).

We model `Arc` identity by an explicit heap: a backing is an index into a
store `mem : Nat → α` with an allocation counter `next`.  `dup` on a `Single`
cell allocates a fresh backing; `dup` on a `Multiple` cell copies the index
(this is exactly `Arc::clone`).  Floating-point values are modelled by their
bit patterns (`Fin (2^32)` / `Fin (2^64)`), which is the granularity at which
the code manipulates them (`transmute` to the unsigned integer of the same
width); machine-integer casts (`as isize`, `as i8`, `as usize`, `as u32`) are
modelled by explicit two's-complement truncation on `Int` / `mod` on `Nat`.
-/

/-- Rust `x as iN` (two's-complement truncation of an integer to a signed
`w`-bit value).  For an in-range source value this is sign extension, i.e.
the identity on the mathematical value. -/
def intCast (w : Nat) (x : Int) : Int :=
  (x + 2 ^ (w - 1)) % 2 ^ w - 2 ^ (w - 1)

/-- Rust `x as uN` for unsigned `x`: truncation to the low `w` bits
(the identity when the value already fits). -/
def natCast (w : Nat) (x : Nat) : Nat :=
  x % 2 ^ w

/-- A value already in the signed `w+1`-bit range is fixed by `intCast`. -/
theorem intCast_eq_self (w : Nat) (x : Int)
    (h1 : -(2 ^ w) ≤ x) (h2 : x < 2 ^ w) : intCast (w + 1) x = x := by
  unfold intCast
  have hpow : (2 : Int) ^ (w + 1) = 2 ^ w * 2 := by
    rw [pow_succ]
  have hnn : (0 : Int) ≤ x + 2 ^ w := by linarith
  have hlt : x + 2 ^ w < 2 ^ (w + 1) := by rw [hpow]; linarith
  simp only [Nat.add_sub_cancel]
  rw [Int.emod_eq_of_lt hnn hlt]
  ring

/-- Widen-then-truncate round trip: casting an in-range signed `w1`-bit value
up to `w2` bits and back down to `w1` bits is the identity. -/
theorem intCast_roundtrip (w1 w2 : Nat) (x : Int)
    (hw1 : 1 ≤ w1) (hw : w1 ≤ w2)
    (h1 : -(2 ^ (w1 - 1)) ≤ x) (h2 : x < 2 ^ (w1 - 1)) :
    intCast w1 (intCast w2 x) = x := by
  obtain ⟨w1', rfl⟩ : ∃ w1', w1 = w1' + 1 := ⟨w1 - 1, by omega⟩
  obtain ⟨w2', rfl⟩ : ∃ w2', w2 = w2' + 1 := ⟨w2 - 1, by omega⟩
  simp only [Nat.add_sub_cancel] at h1 h2
  have hmono : (2 : Int) ^ w1' ≤ 2 ^ w2' := by
    apply pow_le_pow_right₀ (by norm_num)
    omega
  rw [intCast_eq_self w2' x (by linarith) (by linarith),
      intCast_eq_self w1' x h1 h2]

/-! ## SharedI8 (src/shared_i8.rs)

`Data` is `Single(i8) | Multiple(Arc<AtomicIsize>)`.  The atomic backing
stores `val as isize` (sign extension into the 64-bit platform word) and
`get` loads it back with `as i8` (truncation). -/

namespace SharedI8

/-- A heap of `AtomicIsize` backings: `mem` gives the isize stored at each
allocated index, `next` is the next fresh index. -/
structure Heap where
  mem : Nat → Int
  next : Nat

/-- `enum Data { Single(i8), Multiple(Arc<AtomicIsize>) }`; the `Arc` is the
index of its backing in the heap. -/
inductive Data where
  | Single : Int → Data
  | Multiple : Nat → Data

/-- `SharedI8::new`: constructs `Data::Single(value)`. -/
def new (value : Int) : Data :=
  .Single value

/-- `SharedI8::set`: `Single` replaces the local value; `Multiple` does
`mem.store(val as isize, Relaxed)`. -/
def set (c : Data) (val : Int) (h : Heap) : Data × Heap :=
  match c with
  | .Single _ => (.Single val, h)
  | .Multiple id =>
      (.Multiple id, ⟨fun j => if j = id then intCast 64 val else h.mem j, h.next⟩)

/-- `SharedI8::get`: `Single` returns the local value; `Multiple` does
`mem.load(Relaxed) as i8`. -/
def get (c : Data) (h : Heap) : Int :=
  match c with
  | .Single val => val
  | .Multiple id => intCast 8 (h.mem id)

/-- `SharedI8::dup`: on `Single(val)` allocate a fresh `Arc<AtomicIsize>`
initialised with `val as isize`, point `self` at it and return a second
handle to the same backing; on `Multiple` just `Arc::clone` (same index). -/
def dup (c : Data) (h : Heap) : Data × Data × Heap :=
  match c with
  | .Single val =>
      (.Multiple h.next, .Multiple h.next,
       ⟨fun j => if j = h.next then intCast 64 val else h.mem j, h.next + 1⟩)
  | .Multiple id => (.Multiple id, .Multiple id, h)

/-- Representation tag: `true` on the `Multiple` (shared) variant. -/
def isShared : Data → Bool
  | .Single _ => false
  | .Multiple _ => true

/-- One client operation on a single handle. -/
inductive Op where
  | setOp : Int → Op
  | getOp : Op
  | dupOp : Op

/-- Apply one operation to a handle/heap pair, discarding outputs and the
second handle produced by `dup` (which does not affect `self`). -/
def applyOp (op : Op) (s : Data × Heap) : Data × Heap :=
  match op with
  | .setOp v => set s.1 v s.2
  | .getOp => s
  | .dupOp =>
      let (c', _, h') := dup s.1 s.2
      (c', h')

/-- Apply a sequence of operations from left to right. -/
def applyOps : List Op → Data × Heap → Data × Heap
  | [], s => s
  | op :: ops, s => applyOps ops (applyOp op s)

end SharedI8

/-! ## Floating-point bit patterns

The crate manipulates `f32`/`f64` only as whole values or as their exact bit
patterns (`transmute` to `u32`/`u64`/`usize`), so a float is modelled by its
bit pattern: `Fin (2^32)` resp. `Fin (2^64)`.  `transmute` in either
direction is the identity on the pattern. -/

/-- An `f32` value, identified with its 32-bit pattern. -/
abbrev F32 := Fin (2 ^ 32)

/-- An `f64` value, identified with its 64-bit pattern. -/
abbrev F64 := Fin (2 ^ 64)

/-- `transmute::<f32, u32>`. -/
def f32Bits (v : F32) : Nat := v.val

/-- `transmute::<u32, f32>` (the argument is a `u32`, i.e. already < 2^32;
the `mod` makes the function total on `Nat`). -/
def f32OfBits (n : Nat) : F32 := ⟨n % 2 ^ 32, Nat.mod_lt _ (by norm_num)⟩

/-- `transmute::<f64, u64/usize>`. -/
def f64Bits (v : F64) : Nat := v.val

/-- `transmute::<u64/usize, f64>`. -/
def f64OfBits (n : Nat) : F64 := ⟨n % 2 ^ 64, Nat.mod_lt _ (by norm_num)⟩

/-- The all-zero bit pattern (+0.0), used as heap default. -/
def f64Zero : F64 := f64OfBits 0

theorem f32OfBits_f32Bits (v : F32) : f32OfBits (f32Bits v) = v := by
  apply Fin.ext
  exact Nat.mod_eq_of_lt v.isLt

theorem f64OfBits_f64Bits (v : F64) : f64OfBits (f64Bits v) = v := by
  apply Fin.ext
  exact Nat.mod_eq_of_lt v.isLt

/-- A 32-bit pattern is a NaN when the exponent field (bits 23..30) is all
ones and the mantissa (bits 0..22) is nonzero; the sign bit is free. -/
def isNaN32 (v : F32) : Prop :=
  v.val / 2 ^ 23 % 2 ^ 8 = 255 ∧ v.val % 2 ^ 23 ≠ 0

instance (v : F32) : Decidable (isNaN32 v) := by
  unfold isNaN32
  infer_instance

/-! ## SharedF32 (src/shared_f32.rs)

`Data` is `Single(f32) | Multiple(Arc<AtomicUsize>)`.  `set` stores
`transmute::<f32, u32>(val) as usize` (zero extension into the 64-bit word);
`get` loads and does `transmute::<u32, f32>(load as u32)` (truncation). -/

namespace SharedF32

/-- A heap of `AtomicUsize` backings. -/
structure Heap where
  mem : Nat → Nat
  next : Nat

/-- `enum Data { Single(f32), Multiple(Arc<AtomicUsize>) }`. -/
inductive Data where
  | Single : F32 → Data
  | Multiple : Nat → Data

/-- `SharedF32::new`. -/
def new (value : F32) : Data :=
  .Single value

/-- `SharedF32::set`: `Multiple` stores `transmute::<f32,u32>(val) as usize`. -/
def set (c : Data) (val : F32) (h : Heap) : Data × Heap :=
  match c with
  | .Single _ => (.Single val, h)
  | .Multiple id =>
      (.Multiple id,
       ⟨fun j => if j = id then natCast 64 (f32Bits val) else h.mem j, h.next⟩)

/-- `SharedF32::get`: `Multiple` loads and does `transmute(load as u32)`. -/
def get (c : Data) (h : Heap) : F32 :=
  match c with
  | .Single val => val
  | .Multiple id => f32OfBits (natCast 32 (h.mem id))

/-- `SharedF32::dup`. -/
def dup (c : Data) (h : Heap) : Data × Data × Heap :=
  match c with
  | .Single val =>
      (.Multiple h.next, .Multiple h.next,
       ⟨fun j => if j = h.next then natCast 64 (f32Bits val) else h.mem j,
        h.next + 1⟩)
  | .Multiple id => (.Multiple id, .Multiple id, h)

/-- Representation tag. -/
def isShared : Data → Bool
  | .Single _ => false
  | .Multiple _ => true

end SharedF32

/-! ## SharedF64, 64-bit build (src/shared_f64_x64.rs)

`Data` is `Single(f64) | Multiple(Arc<AtomicUsize>)`; `transmute` between
`f64` and `usize` is width-preserving, so no cast is involved. -/

namespace SharedF64x64

/-- A heap of `AtomicUsize` backings. -/
structure Heap where
  mem : Nat → Nat
  next : Nat

/-- `enum Data { Single(f64), Multiple(Arc<AtomicUsize>) }`. -/
inductive Data where
  | Single : F64 → Data
  | Multiple : Nat → Data

/-- `SharedF64::new` (atomic build). -/
def new (value : F64) : Data :=
  .Single value

/-- `SharedF64::set` (atomic build): `Multiple` stores `transmute(val)`. -/
def set (c : Data) (val : F64) (h : Heap) : Data × Heap :=
  match c with
  | .Single _ => (.Single val, h)
  | .Multiple id =>
      (.Multiple id, ⟨fun j => if j = id then f64Bits val else h.mem j, h.next⟩)

/-- `SharedF64::get` (atomic build): `Multiple` does `transmute(load)`. -/
def get (c : Data) (h : Heap) : F64 :=
  match c with
  | .Single val => val
  | .Multiple id => f64OfBits (h.mem id)

/-- `SharedF64::dup` (atomic build). -/
def dup (c : Data) (h : Heap) : Data × Data × Heap :=
  match c with
  | .Single val =>
      (.Multiple h.next, .Multiple h.next,
       ⟨fun j => if j = h.next then f64Bits val else h.mem j, h.next + 1⟩)
  | .Multiple id => (.Multiple id, .Multiple id, h)

end SharedF64x64

/-! ## SharedF64, 32-bit build (src/shared_f64_x32.rs)

`Data` is `Single(f64) | Multiple(Arc<Mutex<f64>>)`: the mutex backing holds
the `f64` value itself, with no bit reinterpretation. -/

namespace SharedF64x32

/-- A heap of `Mutex<f64>` backings. -/
structure Heap where
  mem : Nat → F64
  next : Nat

/-- `enum Data { Single(f64), Multiple(Arc<Mutex<f64>>) }`. -/
inductive Data where
  | Single : F64 → Data
  | Multiple : Nat → Data

/-- `SharedF64::new` (mutex build). -/
def new (value : F64) : Data :=
  .Single value

/-- `SharedF64::set` (mutex build): `Multiple` locks and assigns. -/
def set (c : Data) (val : F64) (h : Heap) : Data × Heap :=
  match c with
  | .Single _ => (.Single val, h)
  | .Multiple id =>
      (.Multiple id, ⟨fun j => if j = id then val else h.mem j, h.next⟩)

/-- `SharedF64::get` (mutex build): `Multiple` locks and copies. -/
def get (c : Data) (h : Heap) : F64 :=
  match c with
  | .Single val => val
  | .Multiple id => h.mem id

/-- `SharedF64::dup` (mutex build). -/
def dup (c : Data) (h : Heap) : Data × Data × Heap :=
  match c with
  | .Single val =>
      (.Multiple h.next, .Multiple h.next,
       ⟨fun j => if j = h.next then val else h.mem j, h.next + 1⟩)
  | .Multiple id => (.Multiple id, .Multiple id, h)

end SharedF64x32

/-! ## SharedI64, 32-bit build (src/shared_i64_x32.rs)

`Data` is `Single(i64) | Multiple(Arc<Mutex<i64>>)`.  Both mutex-backed
operations do `mem.lock().unwrap()`: acquiring a poisoned lock makes
`unwrap` panic.  To settle the error-handling claim we model each mutex with
an explicit poison flag and each operation's result in `Except Unit`, where
`Except.error ()` is the fatal panic from `unwrap` on a poisoned lock. -/

namespace SharedI64x32

/-- A heap of `Mutex<i64>` backings: each cell is the stored value together
with the mutex's poison flag. -/
structure Heap where
  mem : Nat → Int × Bool
  next : Nat

/-- `enum Data { Single(i64), Multiple(Arc<Mutex<i64>>) }`. -/
inductive Data where
  | Single : Int → Data
  | Multiple : Nat → Data

/-- `SharedI64::new` (mutex build): infallible. -/
def new (value : Int) : Data :=
  .Single value

/-- `SharedI64::set` (mutex build): the `Single` arm touches no lock; the
`Multiple` arm does `mem.lock().unwrap()` — a fatal error if the lock is
poisoned — then assigns. -/
def set (c : Data) (val : Int) (h : Heap) : Except Unit (Data × Heap) :=
  match c with
  | .Single _ => .ok (.Single val, h)
  | .Multiple id =>
      if (h.mem id).2 then .error ()
      else
        .ok (.Multiple id,
             ⟨fun j => if j = id then (val, (h.mem id).2) else h.mem j, h.next⟩)

/-- `SharedI64::get` (mutex build): the `Multiple` arm does
`mem.lock().unwrap()` then copies the value. -/
def get (c : Data) (h : Heap) : Except Unit Int :=
  match c with
  | .Single val => .ok val
  | .Multiple id =>
      if (h.mem id).2 then .error () else .ok (h.mem id).1

/-- `SharedI64::dup` (mutex build): acquires no lock in either arm
(`Arc::new` / `Arc::clone` only), hence infallible. -/
def dup (c : Data) (h : Heap) : Data × Data × Heap :=
  match c with
  | .Single val =>
      (.Multiple h.next, .Multiple h.next,
       ⟨fun j => if j = h.next then (val, false) else h.mem j, h.next + 1⟩)
  | .Multiple id => (.Multiple id, .Multiple id, h)

end SharedI64x32

/-! ## SharedObject (src/shared_object.rs)

`Data<T>` is `Single(Arc<T>) | Multiple(Arc<Mutex<Arc<T>>>)`.  The inner
`Arc<T>` is an immutable snapshot; we model snapshots by indices into an
append-only snapshot store, and backings by indices into a backing store
whose cells hold the id of the current snapshot.  `get` returns the snapshot
id (the `Arc<T>` handle); `deref` reads the snapshot's value. -/

namespace SharedObject

/-- The two stores: `snapMem` maps an allocated snapshot id to its immutable
value; `backMem` maps a backing id to the id of its current snapshot. -/
structure State (T : Type) where
  snapMem : Nat → Option T
  snapNext : Nat
  backMem : Nat → Nat
  backNext : Nat

/-- Allocate a fresh immutable snapshot (`Arc::new(val)`). -/
def allocSnap (v : T) (st : State T) : State T :=
  ⟨fun j => if j = st.snapNext then some v else st.snapMem j, st.snapNext + 1,
   st.backMem, st.backNext⟩

/-- `enum Data<T> { Single(Arc<T>), Multiple(Arc<Mutex<Arc<T>>>) }`. -/
inductive Data where
  | Single : Nat → Data
  | Multiple : Nat → Data

/-- `SharedObject::new`: wraps the value in a fresh snapshot, `Single`. -/
def new (v : T) (st : State T) : Data × State T :=
  (.Single st.snapNext, allocSnap v st)

/-- `SharedObject::set`: builds a brand-new snapshot `Arc::new(val)`; the
`Single` arm repoints the cell at it, the `Multiple` arm locks the backing
and repoints the backing's current-snapshot slot at it. -/
def set (c : Data) (v : T) (st : State T) : Data × State T :=
  match c with
  | .Single _ => (.Single st.snapNext, allocSnap v st)
  | .Multiple b =>
      let st1 := allocSnap v st
      (.Multiple b,
       ⟨st1.snapMem, st1.snapNext,
        fun j => if j = b then st.snapNext else st1.backMem j, st1.backNext⟩)

/-- `SharedObject::get`: returns the current snapshot handle (`Arc<T>`),
i.e. its id — `val.clone()` on `Single`, `lock` + `clone` on `Multiple`. -/
def get (c : Data) (st : State T) : Nat :=
  match c with
  | .Single s => s
  | .Multiple b => st.backMem b

/-- Dereference a snapshot handle: the immutable value it points at. -/
def deref (st : State T) (s : Nat) : Option T :=
  st.snapMem s

/-- `SharedObject::dup`: on `Single(val)` allocates
`Arc::new(Mutex::new(val.clone()))` — a fresh backing whose current snapshot
is the cell's existing snapshot — and points both handles at it; on
`Multiple` both handles share the existing backing. -/
def dup (c : Data) (st : State T) : Data × Data × State T :=
  match c with
  | .Single s =>
      (.Multiple st.backNext, .Multiple st.backNext,
       ⟨st.snapMem, st.snapNext,
        fun j => if j = st.backNext then s else st.backMem j, st.backNext + 1⟩)
  | .Multiple b => (.Multiple b, .Multiple b, st)

/-- Well-formed cell over a state: its snapshot/backing id is allocated, and
every allocated backing points at an allocated snapshot. -/
def WF (c : Data) (st : State T) : Prop :=
  (∀ j, j < st.backNext → st.backMem j < st.snapNext) ∧
  (match c with
   | .Single s => s < st.snapNext
   | .Multiple b => b < st.backNext)

end SharedObject

/-! ## Programs over SharedF64 and build equivalence

A client program is a list of operations addressing handles by index; `dup`
appends its second handle to the handle table.  Running a program collects
the outputs of the `get` operations.  The same program can be run against
the 32-bit (mutex) and the 64-bit (atomic) build of `SharedF64`. -/

/-- One program step on a `SharedF64` lineage-world, addressing handles by
index. -/
inductive F64Op where
  | setOp : Nat → F64 → F64Op
  | getOp : Nat → F64Op
  | dupOp : Nat → F64Op

namespace SharedF64x64

/-- A world: a table of handles and the backing heap (atomic build). -/
structure Sys where
  handles : Nat → Data
  hcount : Nat
  heap : Heap

/-- The world right after `SharedF64::new(v)`: one handle, empty heap. -/
def initSys (v : F64) : Sys :=
  ⟨fun _ => new v, 1, ⟨fun _ => 0, 0⟩⟩

/-- Run one step; `get` emits its result. -/
def stepSys (s : Sys) : F64Op → Sys × Option F64
  | .setOp i v =>
      let p := set (s.handles i) v s.heap
      (⟨fun j => if j = i then p.1 else s.handles j, s.hcount, p.2⟩, none)
  | .getOp i => (s, some (get (s.handles i) s.heap))
  | .dupOp i =>
      let p := dup (s.handles i) s.heap
      (⟨fun j => if j = i then p.1 else if j = s.hcount then p.2.1
                 else s.handles j,
        s.hcount + 1, p.2.2⟩, none)

/-- Run a program, collecting the `get` outputs. -/
def runSys : List F64Op → Sys → List F64
  | [], _ => []
  | op :: ops, s =>
      match stepSys s op with
      | (s', none) => runSys ops s'
      | (s', some v) => v :: runSys ops s'

end SharedF64x64

namespace SharedF64x32

/-- A world: a table of handles and the backing heap (mutex build). -/
structure Sys where
  handles : Nat → Data
  hcount : Nat
  heap : Heap

/-- The world right after `SharedF64::new(v)`: one handle, empty heap. -/
def initSys (v : F64) : Sys :=
  ⟨fun _ => new v, 1, ⟨fun _ => f64Zero, 0⟩⟩

/-- Run one step; `get` emits its result. -/
def stepSys (s : Sys) : F64Op → Sys × Option F64
  | .setOp i v =>
      let p := set (s.handles i) v s.heap
      (⟨fun j => if j = i then p.1 else s.handles j, s.hcount, p.2⟩, none)
  | .getOp i => (s, some (get (s.handles i) s.heap))
  | .dupOp i =>
      let p := dup (s.handles i) s.heap
      (⟨fun j => if j = i then p.1 else if j = s.hcount then p.2.1
                 else s.handles j,
        s.hcount + 1, p.2.2⟩, none)

/-- Run a program, collecting the `get` outputs. -/
def runSys : List F64Op → Sys → List F64
  | [], _ => []
  | op :: ops, s =>
      match stepSys s op with
      | (s', none) => runSys ops s'
      | (s', some v) => v :: runSys ops s'

end SharedF64x32

/-- Coupling of handles across the two builds: same tag, same local value /
same backing identity. -/
def relData : SharedF64x64.Data → SharedF64x32.Data → Prop
  | .Single v, .Single w => v = w
  | .Multiple i, .Multiple j => i = j
  | _, _ => False

/-- Coupling of worlds: handles pointwise coupled, same handle count, the
atomic heap stores exactly the bit patterns of the mutex heap's values, and
the allocation frontiers agree. -/
def relSys (a : SharedF64x64.Sys) (b : SharedF64x32.Sys) : Prop :=
  (∀ i, relData (a.handles i) (b.handles i)) ∧
  a.hcount = b.hcount ∧
  (∀ j, a.heap.mem j = f64Bits (b.heap.mem j)) ∧
  a.heap.next = b.heap.next

theorem relData_cases (x : SharedF64x64.Data) (y : SharedF64x32.Data)
    (h : relData x y) :
    (∃ v, x = .Single v ∧ y = .Single v) ∨
    (∃ id, x = .Multiple id ∧ y = .Multiple id) := by
  cases x <;> cases y <;> simp_all [relData]

theorem relSys_step (a : SharedF64x64.Sys) (b : SharedF64x32.Sys)
    (op : F64Op) (hR : relSys a b) :
    relSys (SharedF64x64.stepSys a op).1 (SharedF64x32.stepSys b op).1 ∧
    (SharedF64x64.stepSys a op).2 = (SharedF64x32.stepSys b op).2 := by
  obtain ⟨hH, hC, hM, hN⟩ := hR
  cases op with
  | setOp i v =>
      rcases relData_cases _ _ (hH i) with ⟨v0, ha, hb⟩ | ⟨id0, ha, hb⟩
      · simp only [SharedF64x64.stepSys, SharedF64x32.stepSys, ha, hb,
          SharedF64x64.set, SharedF64x32.set, relSys]
        refine ⟨⟨fun k => ?_, hC, hM, hN⟩, trivial⟩
        by_cases hk : k = i
        · simp [hk, relData]
        · simp only [hk, if_false]; exact hH k
      · simp only [SharedF64x64.stepSys, SharedF64x32.stepSys, ha, hb,
          SharedF64x64.set, SharedF64x32.set, relSys]
        refine ⟨⟨fun k => ?_, hC, fun j => ?_, hN⟩, trivial⟩
        · by_cases hk : k = i
          · simp [hk, relData]
          · simp only [hk, if_false]; exact hH k
        · by_cases hj : j = id0
          · simp [hj]
          · simp only [hj, if_false]; exact hM j
  | getOp i =>
      refine ⟨⟨hH, hC, hM, hN⟩, ?_⟩
      rcases relData_cases _ _ (hH i) with ⟨v0, ha, hb⟩ | ⟨id0, ha, hb⟩
      · simp [SharedF64x64.stepSys, SharedF64x32.stepSys, ha, hb,
          SharedF64x64.get, SharedF64x32.get]
      · simp [SharedF64x64.stepSys, SharedF64x32.stepSys, ha, hb,
          SharedF64x64.get, SharedF64x32.get, hM id0, f64OfBits_f64Bits]
  | dupOp i =>
      rcases relData_cases _ _ (hH i) with ⟨v0, ha, hb⟩ | ⟨id0, ha, hb⟩
      · simp only [SharedF64x64.stepSys, SharedF64x32.stepSys, ha, hb,
          SharedF64x64.dup, SharedF64x32.dup, relSys]
        refine ⟨⟨fun k => ?_, by rw [hC], fun j => ?_, by rw [hN]⟩, trivial⟩
        · by_cases hk : k = i
          · simp [hk, hN, relData]
          · by_cases hk2 : k = a.hcount
            · simp [hk, hk2, hC, hN, relData]
            · simp only [hk, hk2, hC, if_false]
              rw [hC] at hk2
              simp only [hk2, if_false]
              exact hH k
        · by_cases hj : j = a.heap.next
          · simp [hj, hN]
          · rw [hN] at hj ⊢
            simp only [hj, if_false]
            exact hM j
      · simp only [SharedF64x64.stepSys, SharedF64x32.stepSys, ha, hb,
          SharedF64x64.dup, SharedF64x32.dup, relSys]
        refine ⟨⟨fun k => ?_, by rw [hC], hM, hN⟩, trivial⟩
        by_cases hk : k = i
        · simp [hk, relData]
        · by_cases hk2 : k = a.hcount
          · simp [hk, hk2, hC, relData]
          · simp only [hk, hk2, hC, if_false]
            rw [hC] at hk2
            simp only [hk2, if_false]
            exact hH k

theorem relSys_run (ops : List F64Op) :
    ∀ (a : SharedF64x64.Sys) (b : SharedF64x32.Sys), relSys a b →
    SharedF64x64.runSys ops a = SharedF64x32.runSys ops b := by
  induction ops with
  | nil => intro a b _; rfl
  | cons op ops ih =>
      intro a b hR
      obtain ⟨hR', hout⟩ := relSys_step a b op hR
      rw [SharedF64x64.runSys, SharedF64x32.runSys]
      cases h64 : SharedF64x64.stepSys a op with
      | mk a' out64 =>
        cases h32 : SharedF64x32.stepSys b op with
        | mk b' out32 =>
          rw [h64, h32] at hout hR'
          simp only at hout hR'
          subst hout
          cases out64 with
          | none => simpa using ih a' b' hR'
          | some v => simpa using congrArg (v :: ·) (ih a' b' hR')

/-! ## Single-handle operation sequences

`applyOp` runs one source operation against a handle/state pair.  `get` takes
`&self` and performs no store in either arm (atomic load resp. mutex-guarded
read / `Arc::clone`), so it leaves the pair unchanged; `dup`'s second handle
is dropped (it does not affect `self`). -/

namespace SharedObject

/-- One client operation on a single `SharedObject` handle. -/
inductive Op (T : Type) where
  | setOp : T → Op T
  | getOp : Op T
  | dupOp : Op T

/-- Apply one operation to a handle/state pair. -/
def applyOp (op : Op T) (s : Data × State T) : Data × State T :=
  match op with
  | .setOp v => set s.1 v s.2
  | .getOp => s
  | .dupOp =>
      let p := dup s.1 s.2
      (p.1, p.2.2)

/-- Apply a sequence of operations from left to right. -/
def applyOps : List (Op T) → Data × State T → Data × State T
  | [], s => s
  | op :: ops, s => applyOps ops (applyOp op s)

/-- Representation tag: `true` on the `Multiple` (shared) variant. -/
def isShared : Data → Bool
  | .Single _ => false
  | .Multiple _ => true

end SharedObject

/-! ## Helper lemmas -/

theorem SharedI8.applyOps_append_eq (l1 l2 : List SharedI8.Op)
    (s : SharedI8.Data × SharedI8.Heap) :
    SharedI8.applyOps (l1 ++ l2) s =
      SharedI8.applyOps l2 (SharedI8.applyOps l1 s) := by
  induction l1 generalizing s with
  | nil => rfl
  | cons op l ih => simp [SharedI8.applyOps, ih]

theorem SharedObject.applyOps_split {T : Type} (l1 l2 : List (SharedObject.Op T))
    (s : SharedObject.Data × SharedObject.State T) :
    SharedObject.applyOps (l1 ++ l2) s =
      SharedObject.applyOps l2 (SharedObject.applyOps l1 s) := by
  induction l1 generalizing s with
  | nil => rfl
  | cons op l ih => simp [SharedObject.applyOps, ih]

theorem SharedI8.applyOp_shared (op : SharedI8.Op)
    (s : SharedI8.Data × SharedI8.Heap)
    (hs : SharedI8.isShared s.1 = true) :
    SharedI8.isShared (SharedI8.applyOp op s).1 = true := by
  obtain ⟨c, h⟩ := s
  cases op <;> cases c <;>
    simp_all [SharedI8.applyOp, SharedI8.set, SharedI8.dup, SharedI8.isShared]

/-- Writing through a shared `SharedI8` backing and reading it back through
the same backing recovers any in-range i8 value. -/
theorem SharedI8.set_get_shared (id : Nat) (w : Int) (h : SharedI8.Heap)
    (hw1 : -128 ≤ w) (hw2 : w < 128) :
    SharedI8.get (.Multiple id) (SharedI8.set (.Multiple id) w h).2 = w := by
  simp only [SharedI8.get, SharedI8.set, if_pos rfl]
  exact intCast_roundtrip 8 64 w (by norm_num) (by norm_num)
    (by norm_num; linarith) (by norm_num; linarith)

/-- Writing through a shared `SharedObject` backing and reading back through
the same backing yields the freshly installed snapshot. -/
theorem SharedObject.set_get_deref {T : Type} (b : Nat) (y : T)
    (st : SharedObject.State T) :
    SharedObject.deref (SharedObject.set (.Multiple b) y st).2
      (SharedObject.get (.Multiple b) (SharedObject.set (.Multiple b) y st).2) =
      some y := by
  simp [SharedObject.set, SharedObject.get, SharedObject.deref,
    SharedObject.allocSnap]

/-! ## Claim theorems -/

/-- C1: chained duplication (`h1.dup() -> h2`, `h2.dup() -> h3`) produces
exactly one shared backing for the lineage — all three handles hold the
identical backing index, allocated once — and a `set` of a value on any one
of the three handles is observed by a subsequent `get` on every other handle
of the lineage, in every direction; shown for `SharedI8` and for
`SharedObject` (where `get` yields a snapshot that dereferences to the
written value). -/
theorem c1_chained_dup_single_backing
    (v w : Int) (h0 : SharedI8.Heap) (hw1 : -128 ≤ w) (hw2 : w < 128)
    (d1 c2 : SharedI8.Data) (h1 : SharedI8.Heap)
    (e1 : SharedI8.dup (SharedI8.new v) h0 = (d1, c2, h1))
    (d2 c3 : SharedI8.Data) (h2 : SharedI8.Heap)
    (e2 : SharedI8.dup c2 h1 = (d2, c3, h2))
    {T : Type} (x y : T) (st0 : SharedObject.State T)
    (o1 oc2 : SharedObject.Data) (st1 : SharedObject.State T)
    (f1 : SharedObject.dup (SharedObject.new x st0).1
            (SharedObject.new x st0).2 = (o1, oc2, st1))
    (o2 oc3 : SharedObject.Data) (st2 : SharedObject.State T)
    (f2 : SharedObject.dup oc2 st1 = (o2, oc3, st2)) :
    (d1 = .Multiple h0.next ∧ c2 = .Multiple h0.next ∧
     d2 = .Multiple h0.next ∧ c3 = .Multiple h0.next ∧
     h2.next = h0.next + 1) ∧
    (SharedI8.get d1 (SharedI8.set c3 w h2).2 = w ∧
     SharedI8.get c2 (SharedI8.set c3 w h2).2 = w ∧
     SharedI8.get c3 (SharedI8.set d1 w h2).2 = w ∧
     SharedI8.get c2 (SharedI8.set d1 w h2).2 = w ∧
     SharedI8.get d1 (SharedI8.set c2 w h2).2 = w ∧
     SharedI8.get c3 (SharedI8.set c2 w h2).2 = w) ∧
    (o1 = .Multiple st0.backNext ∧ oc2 = .Multiple st0.backNext ∧
     o2 = .Multiple st0.backNext ∧ oc3 = .Multiple st0.backNext ∧
     st2.backNext = st0.backNext + 1) ∧
    (SharedObject.deref (SharedObject.set oc3 y st2).2
       (SharedObject.get o1 (SharedObject.set oc3 y st2).2) = some y ∧
     SharedObject.deref (SharedObject.set o1 y st2).2
       (SharedObject.get oc3 (SharedObject.set o1 y st2).2) = some y ∧
     SharedObject.deref (SharedObject.set oc2 y st2).2
       (SharedObject.get oc3 (SharedObject.set oc2 y st2).2) = some y) := by
  simp only [SharedI8.dup, SharedI8.new, Prod.mk.injEq] at e1
  obtain ⟨hd1, hc2, hh1⟩ := e1
  subst hd1; subst hc2; subst hh1
  simp only [SharedI8.dup, Prod.mk.injEq] at e2
  obtain ⟨hd2, hc3, hh2⟩ := e2
  subst hd2; subst hc3; subst hh2
  simp only [SharedObject.dup, SharedObject.new, Prod.mk.injEq] at f1
  obtain ⟨ho1, hoc2, hst1⟩ := f1
  subst ho1; subst hoc2; subst hst1
  simp only [SharedObject.dup, Prod.mk.injEq] at f2
  obtain ⟨ho2, hoc3, hst2⟩ := f2
  subst ho2; subst hoc3; subst hst2
  refine ⟨⟨rfl, rfl, rfl, rfl, rfl⟩,
          ⟨?_, ?_, ?_, ?_, ?_, ?_⟩,
          ⟨rfl, rfl, rfl, rfl, rfl⟩,
          ?_, ?_, ?_⟩ <;>
    first
      | exact SharedI8.set_get_shared _ w _ hw1 hw2
      | exact SharedObject.set_get_deref _ y _

/-- C2: the representation tag goes `Unshared → Shared` at most once and
never back — after any operation sequence a shared `SharedI8` handle is
still shared; `set` preserves the tag in both representations (a `set` on an
unshared cell replaces the local value in place), `get` changes nothing at
all, and for `SharedF32`, `dup` (the only tag-changing operation) always
leaves and returns shared handles while `set` preserves the tag. -/
theorem c2_tag_transition_monotone :
    (∀ (ops : List SharedI8.Op) (s : SharedI8.Data × SharedI8.Heap),
       SharedI8.isShared s.1 = true →
       SharedI8.isShared (SharedI8.applyOps ops s).1 = true) ∧
    (∀ (c : SharedI8.Data) (v : Int) (h : SharedI8.Heap),
       SharedI8.isShared (SharedI8.set c v h).1 = SharedI8.isShared c) ∧
    (∀ (s : SharedI8.Data × SharedI8.Heap),
       SharedI8.applyOp .getOp s = s) ∧
    (∀ (c : SharedF32.Data) (v : F32) (h : SharedF32.Heap),
       SharedF32.isShared (SharedF32.set c v h).1 = SharedF32.isShared c) ∧
    (∀ (c : SharedF32.Data) (h : SharedF32.Heap),
       SharedF32.isShared (SharedF32.dup c h).1 = true ∧
       SharedF32.isShared (SharedF32.dup c h).2.1 = true) := by
  refine ⟨?_, ?_, ?_, ?_, ?_⟩
  · intro ops
    induction ops with
    | nil => intro s hs; exact hs
    | cons op l ih =>
        intro s hs
        exact ih _ (SharedI8.applyOp_shared op s hs)
  · intro c v h
    cases c <;> simp [SharedI8.set, SharedI8.isShared]
  · intro s; rfl
  · intro c v h
    cases c <;> simp [SharedF32.set, SharedF32.isShared]
  · intro c h
    cases c <;> simp [SharedF32.dup, SharedF32.isShared]

/-- C3: on the atomic backing, the float bit pattern round-trips exactly —
for every `f32` bit pattern (all 2^32 of them, hence every NaN payload and
sign combination and both signed zeros) and every `f64` bit pattern, `set`
through a shared handle followed by `get` through any handle of the lineage
(same backing index) returns the identical pattern; stated once universally
and once restricted to NaN patterns. -/
theorem c3_float_bit_roundtrip (v : F32) (id : Nat) (h : SharedF32.Heap)
    (w : F64) (jd : Nat) (h64 : SharedF64x64.Heap) :
    SharedF32.get (.Multiple id) (SharedF32.set (.Multiple id) v h).2 = v ∧
    SharedF64x64.get (.Multiple jd) (SharedF64x64.set (.Multiple jd) w h64).2 = w ∧
    (isNaN32 v →
      SharedF32.get (.Multiple id) (SharedF32.set (.Multiple id) v h).2 = v) := by
  have hf32 : SharedF32.get (.Multiple id)
      (SharedF32.set (.Multiple id) v h).2 = v := by
    simp only [SharedF32.get, SharedF32.set, if_pos rfl, natCast, f32Bits,
      f32OfBits]
    apply Fin.ext
    have hlt32 : v.val < 2 ^ 32 := v.isLt
    simp only [if_pos rfl, if_true]
    omega
  refine ⟨hf32, ?_, fun _ => hf32⟩
  simp only [SharedF64x64.get, SharedF64x64.set, if_pos rfl]
  exact f64OfBits_f64Bits w

/-- C4: the 32-bit build's mutex-backed `SharedF64` and the 64-bit build's
atomic-backed `SharedF64` are observationally equivalent — any program of
`new`/`get`/`set`/`dup` steps over any handles of the lineage produces
exactly the same sequence of `get` results on both builds. -/
theorem c4_build_observational_equivalence (ops : List F64Op) (v : F64) :
    SharedF64x64.runSys ops (SharedF64x64.initSys v) =
      SharedF64x32.runSys ops (SharedF64x32.initSys v) := by
  apply relSys_run
  refine ⟨fun i => ?_, rfl, fun j => ?_, rfl⟩
  · simp [SharedF64x64.initSys, SharedF64x32.initSys, SharedF64x64.new,
      SharedF64x32.new, relData]
  · simp [SharedF64x64.initSys, SharedF64x32.initSys, f64Bits, f64Zero,
      f64OfBits]

/-- C5: `new(v).get() = v`, and a `get` on a handle immediately after a
`set(v2)` on that same handle returns `v2`, in both the Unshared and the
Shared representation; shown for `SharedI8` (with `v2` in i8 range) and for
`SharedObject` (where `get`'s snapshot dereferences to the value). -/
theorem c5_new_get_set_get
    (v v2 : Int) (h : SharedI8.Heap) (id : Nat)
    (hv2a : -128 ≤ v2) (hv2b : v2 < 128)
    {T : Type} (x x2 : T) (st : SharedObject.State T) (c : SharedObject.Data) :
    SharedI8.get (SharedI8.new v) h = v ∧
    SharedObject.deref (SharedObject.new x st).2
      (SharedObject.get (SharedObject.new x st).1
        (SharedObject.new x st).2) = some x ∧
    SharedI8.get (SharedI8.set (SharedI8.new v) v2 h).1
      (SharedI8.set (SharedI8.new v) v2 h).2 = v2 ∧
    SharedI8.get (SharedI8.set (.Multiple id) v2 h).1
      (SharedI8.set (.Multiple id) v2 h).2 = v2 ∧
    SharedObject.deref (SharedObject.set c x2 st).2
      (SharedObject.get (SharedObject.set c x2 st).1
        (SharedObject.set c x2 st).2) = some x2 := by
  refine ⟨rfl, ?_, rfl, ?_, ?_⟩
  · simp [SharedObject.new, SharedObject.get, SharedObject.deref,
      SharedObject.allocSnap]
  · exact SharedI8.set_get_shared id v2 h hv2a hv2b
  · cases c with
    | Single s =>
        simp [SharedObject.set, SharedObject.get, SharedObject.deref,
          SharedObject.allocSnap]
    | Multiple b => exact SharedObject.set_get_deref b x2 st

/-- C6: `SharedObject.set` always installs a brand-new snapshot and never
mutates an existing one — after a `set` on any handle (either
representation), every snapshot allocated before is unchanged, including in
particular the snapshot currently visible through any well-formed handle;
and the cell just written reads back the fresh snapshot holding `v`. -/
theorem c6_snapshots_never_mutated {T : Type}
    (c creader : SharedObject.Data) (v : T) (st : SharedObject.State T)
    (hwf : SharedObject.WF creader st) :
    SharedObject.deref (SharedObject.set c v st).2
        (SharedObject.get creader st) =
      SharedObject.deref st (SharedObject.get creader st) ∧
    (∀ s, s < st.snapNext →
      (SharedObject.set c v st).2.snapMem s = st.snapMem s) ∧
    SharedObject.get (SharedObject.set c v st).1 (SharedObject.set c v st).2 =
      st.snapNext ∧
    (SharedObject.set c v st).2.snapMem st.snapNext = some v := by
  have hpres : ∀ s, s < st.snapNext →
      (SharedObject.set c v st).2.snapMem s = st.snapMem s := by
    intro s hs
    have hne : s ≠ st.snapNext := Nat.ne_of_lt hs
    cases c <;> simp [SharedObject.set, SharedObject.allocSnap, hne]
  have hlt : SharedObject.get creader st < st.snapNext := by
    cases creader with
    | Single s => exact hwf.2
    | Multiple b => exact hwf.1 b hwf.2
  refine ⟨hpres _ hlt, hpres, ?_, ?_⟩
  · cases c <;> simp [SharedObject.set, SharedObject.get,
      SharedObject.allocSnap]
  · cases c <;> simp [SharedObject.set, SharedObject.allocSnap]

/-- C7: two cells constructed by separate `new` calls (no `dup` between
them) never observe each other's writes — a `set` on the first leaves the
second's `get` result exactly as it was; shown for `SharedI8` (the heap is
untouched) and for `SharedObject` (the second cell's snapshot still
dereferences to its own initial value). -/
theorem c7_no_implicit_sharing
    (v1 v2 w : Int) (h : SharedI8.Heap)
    {T : Type} (x1 x2 y : T) (st0 : SharedObject.State T)
    (o1 : SharedObject.Data) (st1 : SharedObject.State T)
    (f1 : SharedObject.new x1 st0 = (o1, st1))
    (o2 : SharedObject.Data) (st2 : SharedObject.State T)
    (f2 : SharedObject.new x2 st1 = (o2, st2)) :
    (SharedI8.get (SharedI8.new v2) (SharedI8.set (SharedI8.new v1) w h).2 =
       SharedI8.get (SharedI8.new v2) h ∧
     SharedI8.get (SharedI8.new v2) (SharedI8.set (SharedI8.new v1) w h).2 =
       v2) ∧
    (SharedObject.deref (SharedObject.set o1 y st2).2
       (SharedObject.get o2 (SharedObject.set o1 y st2).2) = some x2 ∧
     SharedObject.deref st2 (SharedObject.get o2 st2) = some x2) := by
  simp only [SharedObject.new, Prod.mk.injEq] at f1 f2
  obtain ⟨ho1, hst1⟩ := f1
  subst ho1; subst hst1
  obtain ⟨ho2, hst2⟩ := f2
  subst ho2; subst hst2
  refine ⟨⟨rfl, rfl⟩, ?_, ?_⟩
  · simp only [SharedObject.set, SharedObject.get, SharedObject.deref,
      SharedObject.allocSnap]
    split_ifs <;> first | omega | rfl
  · simp [SharedObject.get, SharedObject.deref, SharedObject.allocSnap]

/-- C8: construction, `get`, `set` and `dup` always succeed on the
non-poisoned paths — the `Single` arms and both arms of `dup` acquire no
lock and are infallible, and the `Multiple` (mutex-backed) arms succeed
whenever the lock is not poisoned; acquiring a poisoned lock is the only
failure and is propagated as a fatal error (`unwrap` panic) with no
recovery.  Shown on the 32-bit build's mutex-backed `SharedI64`. -/
theorem c8_total_except_poisoned_lock
    (v w : Int) (h : SharedI64x32.Heap) (id : Nat) :
    SharedI64x32.set (.Single v) w h = .ok (.Single w, h) ∧
    SharedI64x32.get (.Single v) h = .ok v ∧
    (SharedI64x32.dup (.Single v) h).1 = .Multiple h.next ∧
    (SharedI64x32.dup (.Multiple id) h).1 = .Multiple id ∧
    ((h.mem id).2 = false →
       SharedI64x32.set (.Multiple id) w h =
         .ok (.Multiple id,
              ⟨fun j => if j = id then (w, (h.mem id).2) else h.mem j,
               h.next⟩) ∧
       SharedI64x32.get (.Multiple id) h = .ok (h.mem id).1) ∧
    ((h.mem id).2 = true →
       SharedI64x32.set (.Multiple id) w h = .error () ∧
       SharedI64x32.get (.Multiple id) h = .error ()) := by
  refine ⟨rfl, rfl, rfl, rfl, fun hnp => ?_, fun hp => ?_⟩
  · constructor <;> simp [SharedI64x32.set, SharedI64x32.get, hnp]
  · constructor <;> simp [SharedI64x32.set, SharedI64x32.get, hp]

/-- C9: the widen-then-truncate round trip through the platform word is the
identity for every in-range value of every narrower signed width (`w1` bits
through a `w2`-bit word, `w1 ≤ w2`), and in particular the shared
`SharedI8` backing — which stores `v as isize` and loads back `as i8` —
returns every in-range i8 value exactly. -/
theorem c9_widen_truncate_roundtrip
    (w1 w2 : Nat) (x : Int) (hw1 : 1 ≤ w1) (hw : w1 ≤ w2)
    (hx1 : -(2 ^ (w1 - 1)) ≤ x) (hx2 : x < 2 ^ (w1 - 1))
    (v : Int) (id : Nat) (h : SharedI8.Heap)
    (hv1 : -128 ≤ v) (hv2 : v < 128) :
    intCast w1 (intCast w2 x) = x ∧
    SharedI8.get (.Multiple id) (SharedI8.set (.Multiple id) v h).2 = v :=
  ⟨intCast_roundtrip w1 w2 x hw1 hw hx1 hx2,
   SharedI8.set_get_shared id v h hv1 hv2⟩

/-- C10: `get` is observationally pure — inserting a `get` anywhere into an
operation sequence changes neither the final handle nor the final heap,
`get` leaves the handle/state pair unchanged (in particular the
representation tag and stored value), and two consecutive `get` calls with
no intervening operation return equal values; shown for `SharedI8` and
`SharedObject`. -/
theorem c10_get_observationally_pure
    (pre post : List SharedI8.Op) (s : SharedI8.Data × SharedI8.Heap)
    {T : Type} (opre opost : List (SharedObject.Op T))
    (t : SharedObject.Data × SharedObject.State T) :
    SharedI8.applyOps (pre ++ .getOp :: post) s =
      SharedI8.applyOps (pre ++ post) s ∧
    SharedI8.applyOp .getOp s = s ∧
    SharedI8.get (SharedI8.applyOp .getOp s).1
      (SharedI8.applyOp .getOp s).2 = SharedI8.get s.1 s.2 ∧
    SharedObject.applyOps (opre ++ .getOp :: opost) t =
      SharedObject.applyOps (opre ++ opost) t ∧
    SharedObject.applyOp .getOp t = t ∧
    SharedObject.get (SharedObject.applyOp .getOp t).1
      (SharedObject.applyOp .getOp t).2 = SharedObject.get t.1 t.2 := by
  refine ⟨?_, rfl, rfl, ?_, rfl, rfl⟩
  · rw [SharedI8.applyOps_append_eq, SharedI8.applyOps_append_eq]
    rfl
  · rw [SharedObject.applyOps_split, SharedObject.applyOps_split]
    rfl

/-! ## Concrete witnesses -/

/-- Witness for C1 at `v = 5`, `w = -7`, starting from the empty heap /
state: the chained handles all share backing 0, and a write of `-7` through
one handle is read back through another. -/
theorem c1_chained_dup_witness :
    SharedI8.get (.Multiple 0)
      (SharedI8.set (.Multiple 0) (-7)
        ⟨fun j => if j = 0 then intCast 64 5 else 0, 1⟩).2 = -7 :=
  (c1_chained_dup_single_backing 5 (-7) ⟨fun _ => 0, 0⟩
      (by norm_num) (by norm_num)
      _ _ _ rfl _ _ _ rfl
      (3 : Nat) 4 ⟨fun _ => none, 0, fun _ => 0, 0⟩
      _ _ _ rfl _ _ _ rfl).2.1.1

/-- Witness for C2: a shared `SharedI8` handle is still shared after a
`set`/`get` sequence. -/
theorem c2_tag_transition_witness :
    SharedI8.isShared
      (SharedI8.applyOps [SharedI8.Op.setOp 3, SharedI8.Op.getOp]
        (SharedI8.Data.Multiple 0, ⟨fun _ => 0, 1⟩)).1 = true :=
  c2_tag_transition_monotone.1 [SharedI8.Op.setOp 3, SharedI8.Op.getOp]
    (SharedI8.Data.Multiple 0, ⟨fun _ => 0, 1⟩) rfl

/-- Witness for C3 at the NaN pattern 0xFF800001 (sign bit set, exponent all
ones, nonzero payload): the exact pattern round-trips through the shared
atomic backing. -/
theorem c3_float_bit_witness :
    SharedF32.get (.Multiple 0)
      (SharedF32.set (.Multiple 0) (⟨4286578689, by norm_num⟩ : F32)
        ⟨fun _ => 0, 1⟩).2 = (⟨4286578689, by norm_num⟩ : F32) :=
  (c3_float_bit_roundtrip ⟨4286578689, by norm_num⟩ 0 ⟨fun _ => 0, 1⟩
      f64Zero 0 ⟨fun _ => 0, 1⟩).2.2 (by decide)

/-- Witness for C5 at `v = 3`, `v2 = -5` on a shared `SharedI8` handle. -/
theorem c5_new_get_set_get_witness :
    SharedI8.get (SharedI8.set (.Multiple 0) (-5) ⟨fun _ => 0, 1⟩).1
      (SharedI8.set (.Multiple 0) (-5) ⟨fun _ => 0, 1⟩).2 = -5 :=
  (c5_new_get_set_get 3 (-5) ⟨fun _ => 0, 1⟩ 0 (by norm_num) (by norm_num)
      (1 : Nat) 2 ⟨fun _ => none, 0, fun _ => 0, 0⟩ (.Multiple 0)).2.2.2.1

/-- Witness for C6: in a one-snapshot, one-backing state, a `set` through
the shared handle installs the fresh snapshot 1 holding the new value. -/
theorem c6_snapshots_witness :
    (SharedObject.set (.Multiple 0) (5 : Nat)
      ⟨fun j => if j = 0 then some 9 else none, 1,
       fun _ => 0, 1⟩).2.snapMem 1 = some 5 :=
  (c6_snapshots_never_mutated (.Multiple 0) (.Single 0) 5
      ⟨fun j => if j = 0 then some 9 else none, 1, fun _ => 0, 1⟩
      ⟨fun _ _ => Nat.zero_lt_one, Nat.zero_lt_one⟩).2.2.2

/-- Witness for C7: after two independent `new` calls (values 1 and 2) the
second cell still reads its own value 2. -/
theorem c7_no_implicit_sharing_witness :
    SharedObject.deref
      (⟨fun j => if j = 1 then some 2 else if j = 0 then some 1 else none, 2,
        fun _ => 0, 0⟩ : SharedObject.State Nat)
      (SharedObject.get (.Single 1)
        ⟨fun j => if j = 1 then some 2 else if j = 0 then some 1 else none, 2,
         fun _ => 0, 0⟩) = some 2 :=
  (c7_no_implicit_sharing 10 20 30 ⟨fun _ => 0, 0⟩ (1 : Nat) 2 9
      ⟨fun _ => none, 0, fun _ => 0, 0⟩ _ _ rfl _ _ rfl).2.2

/-- Witness for C8: through the mutex backing, `get` succeeds on an
unpoisoned lock and fails fatally on a poisoned one. -/
theorem c8_total_except_poisoned_lock_witness :
    SharedI64x32.get (.Multiple 0) ⟨fun _ => (7, false), 1⟩ = .ok 7 ∧
    SharedI64x32.get (.Multiple 0) ⟨fun _ => (7, true), 1⟩ = .error () :=
  ⟨((c8_total_except_poisoned_lock 0 0 ⟨fun _ => (7, false), 1⟩
       0).2.2.2.2.1 rfl).2,
   ((c8_total_except_poisoned_lock 0 0 ⟨fun _ => (7, true), 1⟩
       0).2.2.2.2.2 rfl).2⟩

/-- Witness for C9 at `x = v = -100` through widths 8 and 64. -/
theorem c9_widen_truncate_witness :
    intCast 8 (intCast 64 (-100)) = -100 ∧
    SharedI8.get (.Multiple 0)
      (SharedI8.set (.Multiple 0) (-100) ⟨fun _ => 0, 1⟩).2 = -100 :=
  c9_widen_truncate_roundtrip 8 64 (-100) (by norm_num) (by norm_num)
    (by norm_num) (by norm_num) (-100) 0 ⟨fun _ => 0, 1⟩
    (by norm_num) (by norm_num)
